import Mathlib

/-!
Verification of the session & dialogue orchestration core of the
art-viewer-assistant application.

The TypeScript source (`src/app/components/ViewerAssistant.tsx` and the
chat route in `src/unnamed/part_000`) is shallowly embedded below:
pure helpers become Lean functions on `String` / `List Char`, the React
event handlers become state-transition functions over explicit state
records, and the single awaited transport call of each handler is passed
in as an `Except Unit String` value (failure or reply text).  Calls to
the JavaScript builtin `JSON.parse` are abstracted as a
`String → Option Json` parameter (`none` models a parse exception).
JSON numbers are modelled as integers; no verified property depends on
numeric rendering.  JavaScript's `String.prototype.trim` is modelled
with the ASCII whitespace class of `Char.isWhitespace`.
-/

namespace ViewerAssistant

/-! ## Character-list string primitives (JS semantics) -/

/-- The backtick character (code 96). -/
def btick : Char := Char.ofNat 96

/-- The opening curly brace character (code 123). -/
def lbrace : Char := Char.ofNat 123

/-- The closing curly brace character (code 125). -/
def rbrace : Char := Char.ofNat 125

/-- The double-quote character (code 34). -/
def dquote : Char := Char.ofNat 34

/-- Test `listIsPref pat s` holds when `pat` is a prefix of `s`. -/
def listIsPref : List Char → List Char → Bool
  | [], _ => true
  | _ :: _, [] => false
  | p :: ps, c :: cs => p == c && listIsPref ps cs

/-- First index at which `pat` occurs in `s`, as in JS `String.prototype.indexOf`
(for the empty pattern the result is index 0, as in JS). -/
def listFindIdx (pat : List Char) : List Char → Option Nat
  | [] => if pat.isEmpty then some 0 else none
  | c :: rest =>
    if listIsPref pat (c :: rest) then some 0
    else (listFindIdx pat rest).map (· + 1)

/-- Whether `pat` occurs somewhere in `s` (JS `indexOf(pat) !== -1`). -/
def containsL (pat s : List Char) : Bool := (listFindIdx pat s).isSome

/-- Scanner for JS global `String.prototype.replace`: at skip state `0`, if
one of the (non-empty) alternatives in `alts` matches at the current
position — tried in order, modelling a regex alternation's preference — emit
`repl` and skip the rest of the matched alternative; otherwise copy one
character.  A positive skip state drops characters already consumed by a
match. -/
def repAltsGo (alts : List (List Char)) (repl : List Char) : Nat → List Char → List Char
  | _, [] => []
  | 0, c :: rest =>
    match alts.find? (fun a => !a.isEmpty && listIsPref a (c :: rest)) with
    | some a => repl ++ repAltsGo alts repl (a.length - 1) rest
    | none => c :: repAltsGo alts repl 0 rest
  | n + 1, _ :: rest => repAltsGo alts repl n rest

/-- JS `String.prototype.replace` with a global literal pattern (all patterns
occurring in the source are non-empty): scan left to right, replacing each
non-overlapping occurrence of `pat` by `repl`. -/
def listReplaceAll (pat repl : List Char) (s : List Char) : List Char :=
  repAltsGo [pat] repl 0 s

/-- Remove trailing characters satisfying `Char.isWhitespace`. -/
def rdropWs (s : List Char) : List Char :=
  (s.reverse.dropWhile Char.isWhitespace).reverse

/-- JS `String.prototype.trim` on a character list. -/
def trimList (s : List Char) : List Char :=
  rdropWs (s.dropWhile Char.isWhitespace)

/-- JS `trim` on `String`. -/
def jsTrim (s : String) : String := String.mk (trimList s.data)

/-- JS `||` on strings: the left operand unless it is falsy (empty). -/
def jsOr (a b : String) : String := if a = "" then b else a

/-- First index of a single character (JS `indexOf(ch)`). -/
def idxOfChar (ch : Char) (s : List Char) : Option Nat := listFindIdx [ch] s

/-- Last index of a single character (JS `lastIndexOf(ch)`). -/
def lastIdxOfChar (ch : Char) (s : List Char) : Option Nat :=
  (listFindIdx [ch] s.reverse).map (fun i => s.length - 1 - i)

/-- Containment test lifted to `String`. -/
def strContains (s pat : String) : Bool := containsL pat.data s.data

/-- Replacement `listReplaceAll` lifted to `String`. -/
def strReplaceAll (s pat repl : String) : String :=
  String.mk (listReplaceAll pat.data repl.data s.data)

/-! ## JSON value model

Output domain of the abstracted `JSON.parse`.  Numbers are integers. -/

inductive Json where
  | null : Json
  | bool : Bool → Json
  | num : Int → Json
  | str : String → Json
  | arr : List Json → Json
  | obj : List (String × Json) → Json
deriving Inhabited

mutual

/-- JS `String(v)` on a JSON value (never applied to `undefined` in the
embedded code paths). -/
def jsToString : Json → String
  | .null => "null"
  | .bool true => "true"
  | .bool false => "false"
  | .num n => toString n
  | .str s => s
  | .arr xs => jsArrToString xs
  | .obj _ => "[object Object]"

/-- JS `Array.prototype.toString`: elements joined by commas, a `null`
element rendering as the empty string. -/
def jsArrToString : List Json → String
  | [] => ""
  | [Json.null] => ""
  | [x] => jsToString x
  | Json.null :: xs => "," ++ jsArrToString xs
  | x :: xs => jsToString x ++ "," ++ jsArrToString xs

end

/-- JS optional-chaining property access `j?.k`: a property of an object,
`undefined` (`none`) on anything else. -/
def jsGet (j : Json) (k : String) : Option Json :=
  match j with
  | .obj fields => (fields.find? (fun e => e.1 == k)).map (·.2)
  | _ => none

/-- JS `String(j?.k ?? "")`: missing (`undefined`) and `null` both collapse
to the empty string via `?? ""`. -/
def jsField (j : Json) (k : String) : String :=
  match jsGet j k with
  | none => ""
  | some .null => ""
  | some v => jsToString v

/-! ## Chat messages and prompt builders -/

inductive Role where
  | system : Role
  | user : Role
  | assistant : Role
deriving DecidableEq, Repr

structure ChatMessage where
  role : Role
  content : String
  hidden : Bool := false
deriving DecidableEq, Repr

/-- Prompt `buildStep2SystemPrompt` of ViewerAssistant.tsx. -/
def buildStep2SystemPrompt : String :=
  String.intercalate "\n" [
    "【重要：画像認識に関する命令】",
    "あなたは対話型鑑賞のガイドです。目的はユーザーの観察と言語化を支援することです。",
    "",
    "【厳守事項】",
    "1. ユーザーが挙げた物以外には一切触れないでください（新しい物の提示禁止）。",
    "2. 状態を形容する言葉（溶けている、歪んでいる等）をAIから先に使わないでください（ユーザーが言った語は引用として使用可）。",
    "3. ユーザーが入力した物すべてに対して、1つずつ丁寧に抜けなく問いかけを行ってください。",
    "",
    "【問いかけの設計：観点（レンズ）の提示】",
    "- 【形の観点】輪郭や形に注目したとき、何か気づくことはありますか？",
    "- 【質感の観点】表面の様子や重みから、どのような感触が伝わってきそうですか？",
    "- 【空間の観点】置かれている場所や周囲の\"空間\"との関わり（距離・余白・位置）に特徴はありますか？",
    "",
    "【出力形式（ここが重要）】",
    "毎ターン、必ず次の3部構成で日本語の自然文で返してください。JSONやコードブロックは禁止。",
    "ユーザーの観察を短く言い換えて認める（1文）",
    "その観察が印象（感情/雰囲気）にどう関係しうるかを問いかけ",
    "次の一歩になる問いかけを1つだけ（1文、同じ聞き方の繰り返し禁止）"
  ]

/-- Builder `buildStep2KickoffForObject` of ViewerAssistant.tsx: a hidden system
instruction plus a hidden user turn embedding the impression and object. -/
def buildStep2KickoffForObject (imp obj : String) : List ChatMessage :=
  [ { role := .system, content := buildStep2SystemPrompt, hidden := true },
    { role := .user, hidden := true,
      content := "印象：" ++ imp ++ "\n現在深掘り中の物：" ++ obj ++
        "\n\nこの物について、「形/質感/空間」のどれか1つの観点で質問を1つしてください。" } ]

/-- Builder `buildFinalMessages` of ViewerAssistant.tsx. -/
def buildFinalMessages (s1I s1O s2S s3S : String) : List ChatMessage :=
  [ { role := .system, content :=
        "ユーザーの思考を整理するエディターとして、ユーザー自身の発見を称える主体的な鑑賞文を作成してください。" },
    { role := .user, content :=
        "直感：" ++ s1I ++ "\n観察：" ++ s1O ++ "\n意味：" ++ s2S ++ "\n拡張：" ++ s3S ++
        "\n\nこれらを統合して、一つの物語のような解釈にまとめてください。" } ]

/-! ## Candidate parser (`safeParseCandidates`) -/

structure Step3Candidate where
  label : String
  element : String
  location : String
  evidence : String
deriving DecidableEq, Repr

/-- The `first {` / `last }` span extraction shared by `safeParseCandidates`
and `normalizeAssistantText.tryParse`: `text.slice(first, last + 1)`,
`none` when either brace is absent or they are misordered. -/
def spanOf (text : String) : Option String :=
  match idxOfChar lbrace text.data, lastIdxOfChar rbrace text.data with
  | some first, some last =>
    if last ≤ first then none
    else some (String.mk ((text.data.drop first).take (last + 1 - first)))
  | _, _ => none

/-- Label post-processing in `safeParseCandidates`:
`.replace(/人物/g, "人影").replace(/^人$/, "人影")`. -/
def candLabelNorm (s : String) : String :=
  let s1 := strReplaceAll s "人物" "人影"
  if s1 = "人" then "人影" else s1

/-- One element of the `candidates` array, coerced as in the source:
`String(c?.f ?? "").trim()` on each field, plus label normalisation. -/
def candObj (c : Json) : Step3Candidate :=
  { label := candLabelNorm (jsTrim (jsField c "label"))
    element := jsTrim (jsField c "element")
    location := jsTrim (jsField c "location")
    evidence := jsTrim (jsField c "evidence") }

/-- Modelled from the spec's words (§4.3 / §8): each of the four candidate
fields mapped through plain string coercion only — no trimming, no label
rewriting.  Used to compare the specified mapping with the implemented one. -/
def specCandidateCoercion (c : Json) : Step3Candidate :=
  { label := jsField c "label"
    element := jsField c "element"
    location := jsField c "location"
    evidence := jsField c "evidence" }

/-- Truthiness filter of `safeParseCandidates`: all four coerced fields
non-empty. -/
def candAllFields (c : Step3Candidate) : Bool :=
  c.label != "" && c.element != "" && c.location != "" && c.evidence != ""

/-- Candidate extraction `safeParseCandidates` of ViewerAssistant.tsx.  `parse` abstracts
`JSON.parse` (`none` = exception, caught by the source's `try`). -/
def safeParseCandidates (parse : String → Option Json) (text : String) :
    Option (List Step3Candidate) :=
  match spanOf text with
  | none => none
  | some span =>
    match parse span with
    | none => none
    | some json =>
      match jsGet json "candidates" with
      | some (Json.arr cands) =>
        let normalized := (cands.map candObj).filter candAllFields
        if normalized.isEmpty then none else some normalized
      | _ => none

/-! ## C1: candidate-parser behaviour -/

/-- C1 (amended): for every input without a `{...}` span the candidate parser
returns the no-candidates result; and whenever the extracted span parses to a
JSON value whose `candidates` property is a non-empty array in which every
element's four fields coerce (string coercion, trim, and the label rewriting
`人物`→`人影` / exact `人`→`人影`) to non-empty strings, the parser returns
exactly the list of these coerced candidates, in the original order. -/
theorem safeParseCandidates_spec (parse : String → Option Json) (text : String) :
    (spanOf text = none → safeParseCandidates parse text = none) ∧
    (∀ span json cands, spanOf text = some span → parse span = some json →
      jsGet json "candidates" = some (Json.arr cands) → cands ≠ [] →
      (∀ c ∈ cands, candAllFields (candObj c) = true) →
      safeParseCandidates parse text = some (cands.map candObj)) := by
  constructor
  · intro h
    unfold safeParseCandidates
    rw [h]
  · intro span json cands h1 h2 h3 hne hall
    have hfilter : (cands.map candObj).filter candAllFields = cands.map candObj := by
      apply List.filter_eq_self.mpr
      intro a ha
      obtain ⟨c, hc, rfl⟩ := List.mem_map.mp ha
      exact hall c hc
    simp only [safeParseCandidates, h1, h2, h3, hfilter]
    cases cands with
    | nil => exact absurd rfl hne
    | cons c cs => rfl

/-- Concrete candidate-parser input used as witness data. -/
def wText1 : String :=
  "prefix \x7b\"candidates\":[\x7b\"label\":\"dog\",\"element\":\"b\",\"location\":\"c\",\"evidence\":\"d\"\x7d]\x7d tail"

/-- The span `wText1` contains. -/
def wSpan1 : String :=
  "\x7b\"candidates\":[\x7b\"label\":\"dog\",\"element\":\"b\",\"location\":\"c\",\"evidence\":\"d\"\x7d]\x7d"

/-- JSON value of `wSpan1`'s single candidate element. -/
def wElem1 : Json :=
  Json.obj [("label", Json.str "dog"), ("element", Json.str "b"),
    ("location", Json.str "c"), ("evidence", Json.str "d")]

/-- Concrete stand-in for `JSON.parse`, agreeing with it on `wSpan1`. -/
def wParse1 : String → Option Json := fun s =>
  if s = wSpan1 then some (Json.obj [("candidates", Json.arr [wElem1])]) else none

/-- Witness for `safeParseCandidates_spec` at a concrete input. -/
theorem safeParseCandidates_spec_witness :
    safeParseCandidates wParse1 wText1 =
      some [{ label := "dog", element := "b", location := "c", evidence := "d" }] := by
  have h := (safeParseCandidates_spec wParse1 wText1).2 wSpan1
    (Json.obj [("candidates", Json.arr [wElem1])]) [wElem1]
    rfl rfl rfl (List.cons_ne_nil _ _)
    (by intro c hc; rw [List.mem_singleton] at hc; subst hc; rfl)
  rw [h]
  rfl

/-- Concrete counterexample input for the claim as stated: the single
candidate's `label` field is the string `人物`. -/
def cexText1 : String :=
  "\x7b\"candidates\":[\x7b\"label\":\"人物\",\"element\":\"a\",\"location\":\"b\",\"evidence\":\"c\"\x7d]\x7d"

/-- JSON element of `cexText1`'s candidate. -/
def cexElem1 : Json :=
  Json.obj [("label", Json.str "人物"), ("element", Json.str "a"),
    ("location", Json.str "b"), ("evidence", Json.str "c")]

/-- Concrete stand-in for `JSON.parse`, agreeing with it on `cexText1`
(whose span is the whole text). -/
def cexParse1 : String → Option Json := fun s =>
  if s = cexText1 then some (Json.obj [("candidates", Json.arr [cexElem1])]) else none

/-- C1 counterexample: on `cexText1` every element of the `candidates` array
has all four fields (string coercion yields `人物`/`a`/`b`/`c`, all
non-empty), yet the parser returns the label `人影`, not the
string-coerced list — the claim's "exactly that list, each field mapped
through string coercion" fails. -/
theorem safeParseCandidates_cex :
    spanOf cexText1 = some cexText1 ∧
    cexParse1 cexText1 = some (Json.obj [("candidates", Json.arr [cexElem1])]) ∧
    specCandidateCoercion cexElem1 =
      { label := "人物", element := "a", location := "b", evidence := "c" } ∧
    safeParseCandidates cexParse1 cexText1 =
      some [{ label := "人影", element := "a", location := "b", evidence := "c" }] ∧
    safeParseCandidates cexParse1 cexText1 ≠ some [specCandidateCoercion cexElem1] := by
  refine ⟨rfl, rfl, rfl, rfl, by decide⟩

/-! ## Response normalizer (`normalizeAssistantText`) -/

/-- A code-fence marker: three backticks. -/
def fence : List Char := [btick, btick, btick]

/-- The characters of `json`, for the case-insensitive `(?:json)?` group. -/
def jsonWord : List Char := ['j', 's', 'o', 'n']

/-- Case-insensitive (ASCII) prefix test. -/
def listIsPrefCI : List Char → List Char → Bool
  | [], _ => true
  | _ :: _, [] => false
  | p :: ps, c :: cs => p.toLower == c.toLower && listIsPrefCI ps cs

/-- Interior of a fenced block whose opening part ends at the start of `b`:
the text up to the first closing fence, after skipping an optional
case-insensitive `json` tag.  `none` when no closing fence exists. -/
def fenceInterior (b : List Char) : Option (List Char) :=
  match listFindIdx fence b with
  | none => none
  | some j =>
    let sk := if listIsPrefCI jsonWord b then 4 else 0
    some ((b.drop sk).take (j - sk))

/-- The first-match search of `t.match(/\x60\x60\x60(?:json)?\s*([\s\S]*?)\s*\x60\x60\x60/i)`:
earliest opening fence from which a closing fence exists; the whitespace
absorbed by the two `\s*` groups is immaterial because the source trims the
captured group immediately. -/
def fenceScan : List Char → Option (List Char)
  | [] => none
  | c :: rest =>
    if listIsPref fence (c :: rest) then
      match fenceInterior ((c :: rest).drop 3) with
      | some interior => some interior
      | none => fenceScan rest
    else fenceScan rest

/-- Value `inside` of `normalizeAssistantText`: the trimmed interior of the first
fenced block, or the trimmed raw text when no fenced block exists. -/
def insideOf (raw : String) : String :=
  let t := jsTrim raw
  match fenceScan t.data with
  | some interior => jsTrim (String.mk interior)
  | none => t

/-- Helper `tryParse` of `normalizeAssistantText`: extract the `{...}` span, parse
it, and return the trimmed `question` string field when it is a non-empty
string. -/
def tryParseQ (parse : String → Option Json) (s : String) : Option String :=
  match spanOf s with
  | none => none
  | some span =>
    match parse span with
    | none => none
    | some json =>
      match jsGet json "question" with
      | some (Json.str q) => if jsTrim q = "" then none else some (jsTrim q)
      | _ => none

/-- Attempt to match `"question"\s*:\s*"([^"]+)"` at the start of `s`,
returning the captured group. -/
def matchQAt (s : List Char) : Option (List Char) :=
  let qKey := (dquote :: "question".data) ++ [dquote]
  if listIsPref qKey s then
    match (s.drop qKey.length).dropWhile Char.isWhitespace with
    | ':' :: r2 =>
      match r2.dropWhile Char.isWhitespace with
      | q :: r3 =>
        if q == dquote then
          let body := r3.takeWhile (fun c => c != dquote)
          if body.isEmpty then none
          else if (r3.drop body.length).head? == some dquote then some body
          else none
        else none
      | [] => none
    | _ => none
  else none

/-- First match of the regex fallback `/"question"\s*:\s*"([^"]+)"/`. -/
def regexQuestion : List Char → Option (List Char)
  | [] => none
  | c :: rest =>
    match matchQAt (c :: rest) with
    | some q => some q
    | none => regexQuestion rest

/-- Normalizer `normalizeAssistantText` of ViewerAssistant.tsx.  `parse` abstracts
`JSON.parse` as in `safeParseCandidates`. -/
def normalizeAssistantText (parse : String → Option Json) (raw : String) : String :=
  let t := jsTrim raw
  let inside := insideOf raw
  match tryParseQ parse inside with
  | some q => q
  | none =>
  match tryParseQ parse t with
  | some q => q
  | none =>
  match regexQuestion inside.data with
  | some q => jsTrim (String.mk q)
  | none => jsTrim (String.mk (listReplaceAll fence [] inside.data))

/-! ## Fence-stripping lemmas -/

theorem containsL_nil (pat : List Char) : containsL pat [] = pat.isEmpty := by
  simp only [containsL, listFindIdx]
  split <;> simp_all

theorem containsL_cons (pat : List Char) (c : Char) (s : List Char) :
    containsL pat (c :: s) = (listIsPref pat (c :: s) || containsL pat s) := by
  simp only [containsL, listFindIdx]
  split <;> simp_all

/-- Shorthand for the fence-removing global replace. -/
def stripF (s : List Char) : List Char := listReplaceAll fence [] s

theorem repAltsGo_skip (alts : List (List Char)) (repl : List Char) :
    ∀ n s, repAltsGo alts repl n s = repAltsGo alts repl 0 (s.drop n) := by
  intro n
  induction n with
  | zero => intro s; rfl
  | succ n ih =>
    intro s
    cases s with
    | nil => simp [repAltsGo]
    | cons c rest =>
      simp only [repAltsGo, List.drop_succ_cons]
      exact ih rest

theorem stripF_cons (c : Char) (rest : List Char) :
    stripF (c :: rest) =
      if listIsPref fence (c :: rest) then stripF (rest.drop 2)
      else c :: stripF rest := by
  by_cases h : listIsPref fence (c :: rest)
  · rw [if_pos h]
    have hfind : List.find? (fun a => !a.isEmpty && listIsPref a (c :: rest)) [fence]
        = some fence :=
      List.find?_cons_of_pos _ (by rw [Bool.and_eq_true]; exact ⟨rfl, h⟩)
    show repAltsGo [fence] [] 0 (c :: rest) = stripF (rest.drop 2)
    simp only [repAltsGo, hfind]
    rw [show fence.length - 1 = 2 from rfl, repAltsGo_skip]
    rfl
  · rw [if_neg h]
    have hfind : List.find? (fun a => !a.isEmpty && listIsPref a (c :: rest)) [fence]
        = none :=
      List.find?_eq_none.mpr (by
        intro x hx
        simp only [List.mem_singleton] at hx
        subst hx
        simp [h])
    show repAltsGo [fence] [] 0 (c :: rest) = c :: stripF rest
    simp only [repAltsGo, hfind]
    rfl

theorem notPref1_stripF (r : List Char) (h : listIsPref [btick] r = false) :
    listIsPref [btick] (stripF r) = false := by
  cases r with
  | nil => rfl
  | cons e r3 =>
    have he : (btick == e) = false := by
      simpa [listIsPref] using h
    have hpf : listIsPref fence (e :: r3) = false := by
      simp [fence, listIsPref, he]
    rw [stripF_cons, hpf]
    simp [listIsPref, he]

theorem notPref2_stripF (r : List Char) (h : listIsPref [btick, btick] r = false) :
    listIsPref [btick, btick] (stripF r) = false := by
  cases r with
  | nil => rfl
  | cons d r2 =>
    by_cases hd : (btick == d) = true
    · have h1 : listIsPref [btick] r2 = false := by
        simpa [listIsPref, hd] using h
      have hpf : listIsPref fence (d :: r2) = false := by
        cases r2 with
        | nil => simp [fence, listIsPref]
        | cons e r3 =>
          have : (btick == e) = false := by simpa [listIsPref] using h1
          simp [fence, listIsPref, this]
      rw [stripF_cons, hpf]
      simp [listIsPref, hd, notPref1_stripF r2 h1]
    · have hd' : (btick == d) = false := by simpa using hd
      have hpf : listIsPref fence (d :: r2) = false := by
        simp [fence, listIsPref, hd']
      rw [stripF_cons, hpf]
      simp [listIsPref, hd']

/-- The global replace `/\x60\x60\x60/g → ""` leaves no fence marker. -/
theorem noFence_stripF : ∀ s : List Char, containsL fence (stripF s) = false := by
  have main : ∀ n s, s.length ≤ n → containsL fence (stripF s) = false := by
    intro n
    induction n with
    | zero =>
      intro s hs
      have : s = [] := List.eq_nil_of_length_eq_zero (Nat.le_zero.mp hs)
      subst this
      rfl
    | succ n ih =>
      intro s hs
      cases s with
      | nil => rfl
      | cons c rest =>
        rw [stripF_cons]
        by_cases h : listIsPref fence (c :: rest)
        · rw [if_pos h]
          apply ih
          have : rest.length ≤ n := Nat.le_of_succ_le_succ hs
          calc (rest.drop 2).length ≤ rest.length := by
                simp [List.length_drop]
            _ ≤ n := this
        · rw [if_neg (by simp [h])]
          rw [containsL_cons]
          have hrest : containsL fence (stripF rest) = false := by
            apply ih
            exact Nat.le_of_succ_le_succ hs
          rw [hrest]
          have hpref : listIsPref fence (c :: stripF rest) = false := by
            by_cases hc : (btick == c) = true
            · have h2 : listIsPref [btick, btick] rest = false := by
                have := h
                simp only [fence, listIsPref, hc, Bool.true_and] at this
                simpa using this
              simp [fence, listIsPref, hc, notPref2_stripF rest h2]
            · have hc' : (btick == c) = false := by simpa using hc
              simp [fence, listIsPref, hc']
          simp [hpref]
  intro s
  exact main s.length s Nat.le.refl

theorem listIsPref_iff (p s : List Char) : listIsPref p s = true ↔ p <+: s := by
  induction p generalizing s with
  | nil => simp [listIsPref]
  | cons a ps ih =>
    cases s with
    | nil =>
      simp [listIsPref]
    | cons c cs =>
      simp [listIsPref, List.cons_prefix_cons, ih, And.comm]

theorem containsL_iff (p s : List Char) : containsL p s = true ↔ p <:+: s := by
  induction s with
  | nil =>
    rw [containsL_nil]
    simp [List.isEmpty_iff, List.infix_nil]
  | cons c cs ih =>
    rw [containsL_cons]
    simp [listIsPref_iff, ih, List.infix_cons_iff]

theorem trimList_within (s : List Char) : trimList s <:+: s := by
  have h1 : s.dropWhile Char.isWhitespace <:+ s := List.dropWhile_suffix _
  have h2 : trimList s <+: s.dropWhile Char.isWhitespace := by
    unfold trimList rdropWs
    set u := s.dropWhile Char.isWhitespace with hu
    have hrev : (u.reverse.dropWhile Char.isWhitespace).reverse <+: u.reverse.reverse :=
      (List.dropWhile_suffix Char.isWhitespace).reverse
    simpa using hrev
  exact h2.isInfix.trans h1.isInfix

theorem containsL_trim_false (p s : List Char) (h : containsL p s = false) :
    containsL p (trimList s) = false := by
  by_contra hne
  have : containsL p (trimList s) = true := by
    cases hcc : containsL p (trimList s) with
    | false => exact absurd hcc hne
    | true => rfl
  have : p <:+: s := ((containsL_iff p (trimList s)).mp this).trans (trimList_within s)
  rw [(containsL_iff p s).mpr this] at h
  exact Bool.true_eq_false.mp h

/-! ## C9: response-normalizer fence safety -/

/-- C9 (amended): the normalizer is total (never raises), and whenever no
`question` field is found — neither by JSON parsing of the fence interior or
of the whole trimmed text, nor by the regex fallback — the returned text
contains no literal code-fence marker.  (A `question` field that is found is
returned after trimming only, and may contain fence markers; see the
counterexample.) -/
theorem normalizeAssistantText_amended (parse : String → Option Json) (raw : String)
    (h1 : tryParseQ parse (insideOf raw) = none)
    (h2 : tryParseQ parse (jsTrim raw) = none)
    (h3 : regexQuestion (insideOf raw).data = none) :
    containsL fence (normalizeAssistantText parse raw).data = false := by
  simp only [normalizeAssistantText, h1, h2, h3]
  show containsL fence (jsTrim (String.mk (listReplaceAll fence [] (insideOf raw).data))).data = false
  have : (jsTrim (String.mk (listReplaceAll fence [] (insideOf raw).data))).data
      = trimList (stripF (insideOf raw).data) := rfl
  rw [this]
  exact containsL_trim_false _ _ (noFence_stripF _)

/-- Concrete witness input for `normalizeAssistantText_amended`. -/
def wRaw9 : String := "hello ``` world"

/-- Witness for `normalizeAssistantText_amended`: on `wRaw9` with a parser
finding nothing, the result carries no fence marker. -/
theorem normalizeAssistantText_amended_witness :
    containsL fence (normalizeAssistantText (fun _ => none) wRaw9).data = false :=
  normalizeAssistantText_amended (fun _ => none) wRaw9 rfl rfl rfl

/-- Counterexample input: a JSON object whose `question` field contains a
fence marker. -/
def cexRaw9 : String := "\x7b\"question\": \"a``` b\"\x7d"

/-- Concrete stand-in for `JSON.parse`, agreeing with it on `cexRaw9`
(whose `{...}` span is the whole text). -/
def cexParse9 : String → Option Json := fun s =>
  if s = cexRaw9 then some (Json.obj [("question", Json.str "a``` b")]) else none

/-- C9 counterexample: the extracted `question` field is returned verbatim
(after trimming), so the normalizer's result contains a literal code-fence
marker on this input, refuting the claim's "never contains a fence marker on
every return path". -/
theorem normalizeAssistantText_cex :
    normalizeAssistantText cexParse9 cexRaw9 = "a``` b" ∧
    containsL fence (normalizeAssistantText cexParse9 cexRaw9).data = true := by
  exact ⟨rfl, by decide⟩

/-! ## Refusal guard (`isRefusalLike` and the single retry, chat route) -/

/-- Classifier `isRefusalLike` of the chat route: two heuristics, each a disjunction /
conjunction of literal substring tests (the source's regexes contain only
literal alternations). -/
def isRefusalLike (text : String) : Bool :=
  if text = "" then false
  else
    let imageRefusal :=
      (strContains text "申し訳ありませんが" &&
        (strContains text "画像" || strContains text "写真" ||
          strContains text "この画像" || strContains text "その画像") &&
        (strContains text "具体的" || strContains text "詳しい" ||
          strContains text "詳細" || strContains text "説明" ||
          strContains text "情報" || strContains text "提供")) ||
      (strContains text "提供することはできません" || strContains text "お手伝いできません")
    let personRefusal :=
      strContains text "人を特定" || strContains text "人物を特定" ||
      strContains text "個人を特定" ||
      strContains text "特定の人についてはコメントできません" ||
      strContains text "顔認識" || strContains text "本人確認"
    imageRefusal || personRefusal

/-- The override `system` instruction prepended for the refusal retry. -/
def refusalOverrideMessage : ChatMessage :=
  { role := .system
    content := String.intercalate "\n" [
      "【上書き指示】拒否文は禁止（例：申し訳ありませんが〜できません、具体的な情報を提供できません 等）。",
      "個人特定（誰か/有名人/属性推定）は一切しないが、色・質感・位置関係・空間・雰囲気の観察支援は続けてよい。",
      "不確実なら断定せず、ユーザーの発言（例：ざらざら、綺麗でない）を根拠に質問を1つだけ返す。"] }

/-- The retry phase of `POST` (chat route): when the first reply classifies
as a refusal, exactly one retry call is made with the override instruction
prepended to the already-formatted message list; an empty retry result keeps
the original text.  Returns the final text and the message list of the retry
call (`none` when no retry is issued). -/
def refusalRetryStep (formatted : List ChatMessage) (text : String)
    (retryText : String) : String × Option (List ChatMessage) :=
  if isRefusalLike text then
    ((if retryText = "" then text else retryText),
      some (refusalOverrideMessage :: formatted))
  else (text, none)

/-! ## C2: refusal classification of the specified phrase -/

/-- C2 (code evaluation at the failing input): the exact reply
`申し訳ありませんが、具体的な情報を提供できません` is NOT classified as a
refusal — `isRefusalLike` demands an image word (画像/写真) alongside the
apology, or one of the longer phrases 提供することはできません /
お手伝いできません — so no retry call is issued for it, although the code's
own override instruction cites this very phrase as a canonical refusal
example (and a variant containing 画像 is classified). -/
theorem isRefusalLike_misses_spec_phrase :
    isRefusalLike "申し訳ありませんが、具体的な情報を提供できません" = false ∧
    refusalRetryStep [] "申し訳ありませんが、具体的な情報を提供できません" "retry"
      = ("申し訳ありませんが、具体的な情報を提供できません", none) ∧
    isRefusalLike "申し訳ありませんが、この画像について具体的な情報を提供できません" = true ∧
    strContains refusalOverrideMessage.content "具体的な情報を提供できません" = true := by
  refine ⟨by decide, by decide, by decide, by decide⟩

/-! ## Saved views (`recordS3Summary`) -/

structure SavedView where
  label : String
  element : String
  location : String
  evidence : String
  savedAt : Nat
  summary : Option String := none
deriving DecidableEq, Repr

/-- The `Step3Candidate` fields of a saved view. -/
def toCandidate (v : SavedView) : Step3Candidate :=
  { label := v.label, element := v.element, location := v.location, evidence := v.evidence }

/-- The record written by `recordS3Summary`:
`{ ...v, ...base, summary: sum, savedAt: Date.now() }` — every field of the
previous entry is overwritten. -/
def mkSavedView (base : Step3Candidate) (sum : String) (now : Nat) : SavedView :=
  { label := base.label, element := base.element, location := base.location,
    evidence := base.evidence, savedAt := now, summary := some sum }

/-- The `setS3SavedViews` updater of `recordS3Summary`: replace the entry
with the same label in place, or append a new entry. -/
def upsertSavedView (prev : List SavedView) (base : Step3Candidate) (sum : String)
    (now : Nat) : List SavedView :=
  if prev.any (fun v => v.label == base.label) then
    prev.map (fun v => if v.label = base.label then mkSavedView base sum now else v)
  else prev ++ [mkSavedView base sum now]

structure S3State where
  loading : Option Nat
  savingS3 : Bool
  s3Chosen : Option String
  s3Candidates : List Step3Candidate
  s3SavedViews : List SavedView
  s3Msgs : List ChatMessage
  s3Summary : String
deriving DecidableEq, Repr

/-- Handler `recordS3Summary` of ViewerAssistant.tsx: guarded by the saving and
loading flags, resolves the recording target from the candidate list or the
saved views, summarizes the dialogue through one transport call, and upserts
the saved view by label; the saving flag is released on success and failure
alike. -/
def recordS3Summary (st : S3State) (transport : Except Unit String) (now : Nat) : S3State :=
  if st.savingS3 || st.loading.isSome then st
  else
    match st.s3Chosen with
    | none => st
    | some chosen =>
      let candFromList := st.s3Candidates.find? (fun c => c.label == chosen)
      let candFromSaved := (st.s3SavedViews.find? (fun v => v.label == chosen)).map toCandidate
      match candFromList.orElse (fun _ => candFromSaved) with
      | none => st
      | some base =>
        match transport with
        | .ok sum =>
          { st with
            s3Summary := sum
            s3SavedViews := upsertSavedView st.s3SavedViews base sum now
            savingS3 := false }
        | .error _ => { st with savingS3 := false }

/-! ### Upsert lemmas -/

theorem countP_eq_zero_of_label_notMem (L : String) (l : List SavedView)
    (h : L ∉ l.map SavedView.label) :
    l.countP (fun v => v.label == L) = 0 := by
  induction l with
  | nil => rfl
  | cons v rest ih =>
    simp only [List.map_cons, List.mem_cons] at h
    push_neg at h
    rw [List.countP_cons]
    have : (v.label == L) = false := by
      simp [h.1.symm]
    simp [this, ih h.2]

theorem countP_label_one (L : String) (l : List SavedView)
    (hnd : (l.map SavedView.label).Nodup)
    (hany : l.any (fun v => v.label == L) = true) :
    l.countP (fun v => v.label == L) = 1 := by
  induction l with
  | nil => simp at hany
  | cons v rest ih =>
    simp only [List.map_cons, List.nodup_cons] at hnd
    rw [List.countP_cons]
    by_cases hv : v.label = L
    · have h0 : rest.countP (fun v => v.label == L) = 0 :=
        countP_eq_zero_of_label_notMem L rest (hv ▸ hnd.1)
      simp [hv, h0]
    · have : (v.label == L) = false := by simp [hv]
      rw [this]
      simp only [List.any_cons, this, Bool.false_or] at hany
      simp [ih hnd.2 hany]

theorem mapLabel_replace (bl : String) (w : SavedView) (hw : w.label = bl)
    (l : List SavedView) :
    (l.map (fun v => if v.label = bl then w else v)).map SavedView.label
      = l.map SavedView.label := by
  induction l with
  | nil => rfl
  | cons v rest ih =>
    simp only [List.map_cons]
    by_cases hv : v.label = bl
    · rw [if_pos hv, hw, hv, ih]
    · rw [if_neg hv, ih]

theorem filterNe_replace (bl : String) (w : SavedView) (hw : w.label = bl)
    (l : List SavedView) :
    (l.map (fun v => if v.label = bl then w else v)).filter (fun v => v.label != bl)
      = l.filter (fun v => v.label != bl) := by
  induction l with
  | nil => rfl
  | cons v rest ih =>
    simp only [List.map_cons, List.filter_cons]
    by_cases hv : v.label = bl
    · have h1 : (w.label != bl) = false := by simp [hw]
      have h2 : (v.label != bl) = false := by simp [hv]
      rw [if_pos hv, h1, h2]
      simpa using ih
    · have h2 : (v.label != bl) = true := by simp [hv]
      rw [if_neg hv, h2]
      simp [ih]

theorem memLabel_replace (bl : String) (w : SavedView) (l : List SavedView) :
    ∀ v ∈ l.map (fun v => if v.label = bl then w else v), v.label = bl →
      v = w ∨ w.label ≠ bl := by
  intro v hv hlabel
  obtain ⟨u, _, hfu⟩ := List.mem_map.mp hv
  by_cases hul : u.label = bl
  · rw [if_pos hul] at hfu
    exact Or.inl hfu.symm
  · rw [if_neg hul] at hfu
    subst hfu
    exact absurd hlabel hul

theorem upsertSavedView_present (prev : List SavedView) (base : Step3Candidate)
    (sum : String) (now : Nat) (L : String) (hbl : base.label = L)
    (hany : prev.any (fun v => v.label == L) = true) :
    (upsertSavedView prev base sum now).map SavedView.label = prev.map SavedView.label ∧
    (upsertSavedView prev base sum now).length = prev.length ∧
    (upsertSavedView prev base sum now).filter (fun v => v.label != L)
      = prev.filter (fun v => v.label != L) ∧
    ∀ v ∈ upsertSavedView prev base sum now, v.label = L → v = mkSavedView base sum now := by
  have hwl : (mkSavedView base sum now).label = L := hbl
  unfold upsertSavedView
  rw [hbl, if_pos hany]
  refine ⟨mapLabel_replace L _ hwl prev, by simp, filterNe_replace L _ hwl prev, ?_⟩
  intro v hv hlabel
  rcases memLabel_replace L _ prev v hv hlabel with h | h
  · exact h
  · exact absurd hwl h

theorem upsertSavedView_absent (prev : List SavedView) (base : Step3Candidate)
    (sum : String) (now : Nat) (L : String) (hbl : base.label = L)
    (hany : prev.any (fun v => v.label == L) = false) :
    upsertSavedView prev base sum now = prev ++ [mkSavedView base sum now] := by
  subst hbl
  unfold upsertSavedView
  rw [if_neg (by simp [hany])]

theorem countP_label_of_mapLabel_eq (L : String) (l₁ l₂ : List SavedView)
    (h : l₁.map SavedView.label = l₂.map SavedView.label) :
    l₁.countP (fun v => v.label == L) = l₂.countP (fun v => v.label == L) := by
  have h1 : l₁.countP (fun v => v.label == L)
      = (l₁.map SavedView.label).countP (fun s => s == L) := by
    rw [List.countP_map]; rfl
  have h2 : l₂.countP (fun v => v.label == L)
      = (l₂.map SavedView.label).countP (fun s => s == L) := by
    rw [List.countP_map]; rfl
  rw [h1, h2, h]

theorem label_notMem_of_any_false (L : String) (l : List SavedView)
    (h : l.any (fun v => v.label == L) = false) :
    L ∉ l.map SavedView.label := by
  intro hmem
  obtain ⟨v, hv, hvl⟩ := List.mem_map.mp hmem
  have : l.any (fun v => v.label == L) = true :=
    List.any_eq_true.mpr ⟨v, hv, by simp [hvl]⟩
  rw [this] at h
  exact Bool.true_eq_false.mp h

/-- Combined behaviour of the saved-view upsert: labels stay unique, exactly
one entry carries the recorded label, that entry holds the new timestamp and
summary, entries with other labels are untouched, and a recording of an
already-present label keeps the list length (in-place overwrite). -/
theorem upsertSavedView_bundle (prev : List SavedView) (base : Step3Candidate)
    (sum : String) (now : Nat) (L : String) (hbl : base.label = L)
    (hnd : (prev.map SavedView.label).Nodup) :
    ((upsertSavedView prev base sum now).map SavedView.label).Nodup ∧
    (upsertSavedView prev base sum now).countP (fun v => v.label == L) = 1 ∧
    (∀ v ∈ upsertSavedView prev base sum now,
      v.label = L → v.savedAt = now ∧ v.summary = some sum) ∧
    (upsertSavedView prev base sum now).filter (fun v => v.label != L)
      = prev.filter (fun v => v.label != L) ∧
    (prev.any (fun v => v.label == L) = true →
      (upsertSavedView prev base sum now).length = prev.length) := by
  by_cases hany : prev.any (fun v => v.label == L) = true
  · obtain ⟨hmap, hlen, hfil, hmem⟩ := upsertSavedView_present prev base sum now L hbl hany
    refine ⟨by rw [hmap]; exact hnd, ?_, ?_, hfil, fun _ => hlen⟩
    · rw [countP_label_of_mapLabel_eq L _ prev hmap]
      exact countP_label_one L prev hnd hany
    · intro v hv hvl
      have := hmem v hv hvl
      subst this
      exact ⟨rfl, rfl⟩
  · have hany' : prev.any (fun v => v.label == L) = false := by
      cases h : prev.any (fun v => v.label == L) with
      | false => rfl
      | true => exact absurd h hany
    have hup := upsertSavedView_absent prev base sum now L hbl hany'
    have hnotmem := label_notMem_of_any_false L prev hany'
    rw [hup]
    have hwlab : (mkSavedView base sum now).label = L := hbl
    refine ⟨?_, ?_, ?_, ?_, fun h => absurd h (by rw [hany']; simp)⟩
    · rw [List.map_append]
      apply List.Nodup.append hnd (by simp)
      intro a ha hb
      simp only [List.map_cons, List.map_nil, List.mem_singleton] at hb
      rw [hb, hwlab] at ha
      exact hnotmem ha
    · rw [List.countP_append, countP_eq_zero_of_label_notMem L prev hnotmem]
      simp [hwlab]
    · intro v hv hvl
      rcases List.mem_append.mp hv with h | h
      · exact absurd (List.mem_map_of_mem SavedView.label h) (hvl ▸ hnotmem)
      · rw [List.mem_singleton.mp h]
        exact ⟨rfl, rfl⟩
    · rw [List.filter_append]
      have : ((mkSavedView base sum now).label != L) = false := by simp [hwlab]
      simp [List.filter_cons, this]

/-! ## C6: label-unique saved views -/

/-- C6: recording a viewpoint (`recordS3Summary`, successful transport)
leaves exactly one saved view carrying the recorded label, with `savedAt`
equal to this recording's timestamp and the fresh summary; saved views with
other labels are untouched; label-uniqueness of the list is preserved; and
recording an already-present label overwrites in place (the list length is
unchanged). -/
theorem recordS3Summary_labelUnique (st : S3State) (sum : String) (now : Nat) (L : String)
    (hs : st.savingS3 = false) (hl : st.loading = none) (hc : st.s3Chosen = some L)
    (hbase : (st.s3Candidates.any (fun c => c.label == L)
      || st.s3SavedViews.any (fun v => v.label == L)) = true)
    (hnd : (st.s3SavedViews.map SavedView.label).Nodup) :
    (((recordS3Summary st (.ok sum) now).s3SavedViews.map SavedView.label).Nodup) ∧
    (recordS3Summary st (.ok sum) now).s3SavedViews.countP (fun v => v.label == L) = 1 ∧
    (∀ v ∈ (recordS3Summary st (.ok sum) now).s3SavedViews,
      v.label = L → v.savedAt = now ∧ v.summary = some sum) ∧
    (recordS3Summary st (.ok sum) now).s3SavedViews.filter (fun v => v.label != L)
      = st.s3SavedViews.filter (fun v => v.label != L) ∧
    (st.s3SavedViews.any (fun v => v.label == L) = true →
      (recordS3Summary st (.ok sum) now).s3SavedViews.length = st.s3SavedViews.length) := by
  have hguard : (st.savingS3 || st.loading.isSome) = false := by
    rw [hs, hl]; rfl
  cases hfl : st.s3Candidates.find? (fun c => c.label == L) with
  | some c =>
    have hcl : c.label = L := by
      have := List.find?_some hfl
      simpa using this
    have hred : (recordS3Summary st (.ok sum) now).s3SavedViews
        = upsertSavedView st.s3SavedViews c sum now := by
      simp only [recordS3Summary, hguard, Bool.false_eq_true, if_neg, hc, hfl]
      rfl
    rw [hred]
    exact upsertSavedView_bundle st.s3SavedViews c sum now L hcl hnd
  | none =>
    have hcands : st.s3Candidates.any (fun c => c.label == L) = false := by
      cases h : st.s3Candidates.any (fun c => c.label == L) with
      | false => rfl
      | true =>
        obtain ⟨x, hx, hpx⟩ := List.any_eq_true.mp h
        have := List.find?_eq_none.mp hfl x hx
        exact absurd hpx this
    have hsaved : st.s3SavedViews.any (fun v => v.label == L) = true := by
      rw [hcands] at hbase
      simpa using hbase
    have hfs : (st.s3SavedViews.find? (fun v => v.label == L)).isSome := by
      rw [List.find?_isSome]
      obtain ⟨v, hv, hpv⟩ := List.any_eq_true.mp hsaved
      exact ⟨v, hv, hpv⟩
    obtain ⟨v, hv⟩ := Option.isSome_iff_exists.mp hfs
    have hvl : (toCandidate v).label = L := by
      have := List.find?_some hv
      simpa [toCandidate] using this
    have hred : (recordS3Summary st (.ok sum) now).s3SavedViews
        = upsertSavedView st.s3SavedViews (toCandidate v) sum now := by
      simp only [recordS3Summary, hguard, Bool.false_eq_true, if_neg, hc, hfl, hv]
      rfl
    rw [hred]
    exact upsertSavedView_bundle st.s3SavedViews (toCandidate v) sum now L hvl hnd

/-- Concrete state for the C6 witness: one candidate, no saved views yet. -/
def wSt6 : S3State :=
  { loading := none, savingS3 := false, s3Chosen := some "窓"
    s3Candidates := [{ label := "窓", element := "e", location := "l", evidence := "v" }]
    s3SavedViews := [], s3Msgs := [], s3Summary := "" }

/-- Witness for `recordS3Summary_labelUnique` at a concrete state. -/
theorem recordS3Summary_labelUnique_witness :
    (((recordS3Summary wSt6 (.ok "view summary") 5).s3SavedViews.map SavedView.label).Nodup) ∧
    (recordS3Summary wSt6 (.ok "view summary") 5).s3SavedViews.countP
      (fun v => v.label == "窓") = 1 :=
  ⟨(recordS3Summary_labelUnique wSt6 "view summary" 5 "窓" rfl rfl rfl (by decide)
      (by decide)).1,
    (recordS3Summary_labelUnique wSt6 "view summary" 5 "窓" rfl rfl rfl (by decide)
      (by decide)).2.1⟩

/-! ## Candidate exclusion sets (`regenerateStep3` / `prepareStep3`) -/

/-- Worker for `[...new Set(l)]`: accumulate first occurrences in order. -/
def dedupGo (acc : List String) : List String → List String
  | [] => acc
  | x :: rest => if x ∈ acc then dedupGo acc rest else dedupGo (acc ++ [x]) rest

/-- Spread `[...new Set(l)]`: deduplicate keeping the first occurrence of each
element, preserving insertion order. -/
def jsSetDedup (l : List String) : List String := dedupGo [] l

/-- The new exclusion set computed by `regenerateStep3`: previous exclusions,
labels of the currently shown candidates, and all saved-view labels,
deduplicated. -/
def regenerateExcluded (prevEx : List String) (cands : List Step3Candidate)
    (views : List SavedView) : List String :=
  jsSetDedup (prevEx ++ cands.map Step3Candidate.label ++ views.map SavedView.label)

/-- The exclusion list `prepareStep3` passes to the candidate-generation
call: `[...new Set([...baseExcluded, ...savedLabels])]`. -/
def prepareMergedExcluded (baseEx : List String) (views : List SavedView) : List String :=
  jsSetDedup (baseEx ++ views.map SavedView.label)

theorem mem_dedupGo (x : String) (l : List String) :
    ∀ acc, x ∈ dedupGo acc l ↔ x ∈ acc ∨ x ∈ l := by
  induction l with
  | nil => intro acc; simp [dedupGo]
  | cons y rest ih =>
    intro acc
    simp only [dedupGo]
    by_cases hy : y ∈ acc
    · rw [if_pos hy, ih]
      constructor
      · rintro (h | h)
        · exact Or.inl h
        · exact Or.inr (List.mem_cons_of_mem y h)
      · rintro (h | h)
        · exact Or.inl h
        · rcases List.mem_cons.mp h with rfl | h
          · exact Or.inl hy
          · exact Or.inr h
    · rw [if_neg hy, ih]
      simp only [List.mem_append, List.mem_singleton, List.mem_cons]
      tauto

theorem nodup_dedupGo (l : List String) :
    ∀ acc, acc.Nodup → (dedupGo acc l).Nodup := by
  induction l with
  | nil => intro acc h; exact h
  | cons y rest ih =>
    intro acc h
    simp only [dedupGo]
    by_cases hy : y ∈ acc
    · rw [if_pos hy]; exact ih acc h
    · rw [if_neg hy]
      exact ih (acc ++ [y]) (by simp [List.nodup_append, h, hy])

theorem dedupGo_of_subset (l : List String) :
    ∀ acc, (∀ x ∈ l, x ∈ acc) → dedupGo acc l = acc := by
  induction l with
  | nil => intro acc _; rfl
  | cons y rest ih =>
    intro acc h
    simp only [dedupGo]
    rw [if_pos (h y (List.mem_cons_self y rest))]
    exact ih acc (fun x hx => h x (List.mem_cons_of_mem y hx))

theorem dedupGo_append (l₁ l₂ : List String) :
    ∀ acc, dedupGo acc (l₁ ++ l₂) = dedupGo (dedupGo acc l₁) l₂ := by
  induction l₁ with
  | nil => intro acc; rfl
  | cons y rest ih =>
    intro acc
    simp only [List.cons_append, dedupGo, List.append_eq]
    by_cases hy : y ∈ acc
    · rw [if_pos hy, if_pos hy, ih]
    · rw [if_neg hy, if_neg hy, ih]

theorem dedupGo_nodup_disjoint (l : List String) :
    ∀ acc, l.Nodup → (∀ x ∈ l, x ∉ acc) → dedupGo acc l = acc ++ l := by
  induction l with
  | nil => intro acc _ _; simp [dedupGo]
  | cons y rest ih =>
    intro acc hnd hdis
    simp only [dedupGo]
    rw [if_neg (hdis y (List.mem_cons_self y rest))]
    rw [ih (acc ++ [y]) (List.Nodup.of_cons hnd)]
    · simp
    · intro x hx
      simp only [List.mem_append, List.mem_singleton]
      push_neg
      refine ⟨hdis x (List.mem_cons_of_mem y hx), ?_⟩
      intro hxy
      rw [hxy] at hx
      exact (List.nodup_cons.mp hnd).1 hx

theorem jsSetDedup_nodup_id (l : List String) (h : l.Nodup) : jsSetDedup l = l := by
  unfold jsSetDedup
  rw [dedupGo_nodup_disjoint l [] h (by simp)]
  simp

theorem jsSetDedup_absorb (l extra : List String) (hnd : l.Nodup)
    (hsub : ∀ x ∈ extra, x ∈ l) : jsSetDedup (l ++ extra) = l := by
  unfold jsSetDedup
  rw [dedupGo_append]
  have h1 : dedupGo [] l = l := jsSetDedup_nodup_id l hnd
  rw [h1]
  exact dedupGo_of_subset extra l hsub

/-! ## C7: exclusion-set invariants across regeneration -/

/-- C7: the exclusion set produced by `regenerateStep3` is the duplicate-free
union of the previous exclusions, the labels of the just-shown candidates,
and all saved-view labels; `prepareStep3` passes exactly this set (its own
merge with the saved labels adds nothing); and a second regeneration yields
the duplicate-free union over both shown candidate lists and the saved-view
labels. -/
theorem regenerateStep3_exclusions (prevEx : List String)
    (cands cands2 : List Step3Candidate) (views : List SavedView) :
    (regenerateExcluded prevEx cands views).Nodup ∧
    (∀ x, x ∈ regenerateExcluded prevEx cands views ↔
      x ∈ prevEx ∨ x ∈ cands.map Step3Candidate.label ∨ x ∈ views.map SavedView.label) ∧
    prepareMergedExcluded (regenerateExcluded prevEx cands views) views
      = regenerateExcluded prevEx cands views ∧
    (regenerateExcluded (regenerateExcluded prevEx cands views) cands2 views).Nodup ∧
    (∀ x, x ∈ regenerateExcluded (regenerateExcluded prevEx cands views) cands2 views ↔
      x ∈ prevEx ∨ x ∈ cands.map Step3Candidate.label ∨
      x ∈ cands2.map Step3Candidate.label ∨ x ∈ views.map SavedView.label) := by
  have hmem : ∀ (l : List String) (x : String), x ∈ jsSetDedup l ↔ x ∈ l := by
    intro l x
    unfold jsSetDedup
    rw [mem_dedupGo]
    simp
  have hnodup : ∀ l : List String, (jsSetDedup l).Nodup := by
    intro l
    exact nodup_dedupGo l [] List.nodup_nil
  refine ⟨hnodup _, ?_, ?_, hnodup _, ?_⟩
  · intro x
    unfold regenerateExcluded
    rw [hmem]
    simp [List.mem_append, or_assoc]
  · unfold prepareMergedExcluded
    apply jsSetDedup_absorb _ _ (hnodup _)
    intro x hx
    rw [hmem]
    simp only [List.mem_append]
    exact Or.inr hx
  · intro x
    unfold regenerateExcluded
    rw [hmem]
    simp only [List.mem_append, hmem]
    tauto

/-- Concrete candidate for the C7 witness. -/
def wCand7 : Step3Candidate := ⟨"時計", "e", "l", "v"⟩

/-- Concrete saved view for the C7 witness. -/
def wView7 : SavedView := ⟨"窓", "e", "l", "v", 1, some "s"⟩

/-- Witness for `regenerateStep3_exclusions` at concrete data: starting from
no exclusions, one shown candidate and one saved view union without
duplicates, and `prepareStep3`'s merge passes exactly that set. -/
theorem regenerateStep3_exclusions_witness :
    regenerateExcluded [] [wCand7] [wView7] = ["時計", "窓"] ∧
    prepareMergedExcluded (regenerateExcluded [] [wCand7] [wView7]) [wView7]
      = ["時計", "窓"] := by
  have h := (regenerateStep3_exclusions [] [wCand7] [] [wView7]).2.2.1
  have hval : regenerateExcluded [] [wCand7] [wView7] = ["時計", "窓"] := by decide
  exact ⟨hval, by rw [h, hval]⟩

/-! ## String-keyed records (JS object / IndexedDB store model)

A JS object used as a dictionary preserves insertion order; `{ ...m, [k]: v }`
overwrites an existing key in place and appends a fresh one. -/

/-- Lookup in a string-keyed record. -/
def alookup {α : Type} (m : List (String × α)) (k : String) : Option α :=
  (m.find? (fun e => e.1 == k)).map (·.2)

/-- Update `{ ...m, [k]: v }` (also the semantics of an IndexedDB `put`). -/
def aupdate {α : Type} (m : List (String × α)) (k : String) (v : α) : List (String × α) :=
  if m.any (fun e => e.1 == k) then
    m.map (fun e => if e.1 = k then (k, v) else e)
  else m ++ [(k, v)]

theorem alookup_nil {α : Type} (k : String) : alookup ([] : List (String × α)) k = none :=
  rfl

theorem alookup_cons {α : Type} (e : String × α) (m : List (String × α)) (k : String) :
    alookup (e :: m) k = if e.1 == k then some e.2 else alookup m k := by
  unfold alookup
  simp only [List.find?]
  cases h : (e.1 == k) <;> simp [h]

theorem alookup_aupdate_self {α : Type} (m : List (String × α)) (k : String) (v : α) :
    alookup (aupdate m k v) k = some v := by
  unfold aupdate
  by_cases hany : m.any (fun e => e.1 == k) = true
  · rw [if_pos hany]
    induction m with
    | nil => simp at hany
    | cons e rest ih =>
      simp only [List.map_cons]
      by_cases he : e.1 = k
      · rw [if_pos he, alookup_cons]
        simp
      · rw [if_neg he, alookup_cons]
        have hf : (e.1 == k) = false := by simp [he]
        rw [hf, if_neg (by simp)]
        apply ih
        simp only [List.any_cons, hf, Bool.false_or] at hany
        exact hany
  · rw [if_neg hany]
    induction m with
    | nil =>
      simp only [List.nil_append]
      rw [alookup_cons]
      simp
    | cons e rest ih =>
      have hf : (e.1 == k) = false := by
        cases h : (e.1 == k) with
        | false => rfl
        | true =>
          exact absurd (List.any_eq_true.mpr ⟨e, List.mem_cons_self e rest, h⟩) hany
      simp only [List.cons_append]
      rw [alookup_cons, hf, if_neg (by simp)]
      apply ih
      intro hany2
      exact hany (by simp only [List.any_cons, hany2, Bool.or_true])

theorem alookup_aupdate_ne {α : Type} (m : List (String × α)) (k k' : String) (v : α)
    (h : k' ≠ k) : alookup (aupdate m k v) k' = alookup m k' := by
  unfold aupdate
  have hkk : (k == k') = false := by simp [Ne.symm h]
  by_cases hany : m.any (fun e => e.1 == k) = true
  · rw [if_pos hany]
    clear hany
    induction m with
    | nil => rfl
    | cons e rest ih =>
      simp only [List.map_cons]
      by_cases he : e.1 = k
      · rw [if_pos he, alookup_cons, alookup_cons, hkk]
        have hek : (e.1 == k') = false := by simp [he, Ne.symm h]
        rw [hek]
        simp only [Bool.false_eq_true, if_false]
        exact ih
      · rw [if_neg he, alookup_cons, alookup_cons]
        cases hpe : (e.1 == k') with
        | true => simp [hpe]
        | false =>
          simp only [hpe, Bool.false_eq_true, if_false]
          exact ih
  · rw [if_neg hany]
    induction m with
    | nil =>
      simp only [List.nil_append]
      rw [alookup_cons, hkk]
      simp [alookup_nil]
    | cons e rest ih =>
      simp only [List.cons_append]
      rw [alookup_cons, alookup_cons]
      cases hpe : (e.1 == k') with
      | true => simp [hpe]
      | false =>
        simp only [hpe, Bool.false_eq_true, if_false]
        apply ih
        intro hany2
        exact hany (by simp only [List.any_cons, hany2, Bool.or_true])

/-! ## Object splitting and prompt normalisation -/

/-- Splitter `splitObjects` of ViewerAssistant.tsx: split on `、，,` and newline, trim
each piece, drop empties. -/
def splitObjects (raw : String) : List String :=
  ((raw.split (fun c => c == '、' || c == '，' || c == ',' || c == '\n')).map jsTrim).filter
    (fun s => s != "")

/-- Alternatives of the regex `(この)?人物は誰(ですか)?`, in the greedy
preference order of the engine. -/
def whoAlternatives : List (List Char) :=
  ["この人物は誰ですか".data, "この人物は誰".data, "人物は誰ですか".data, "人物は誰".data]

/-- Normalizer `normalizeObjectsForPrompt` of ViewerAssistant.tsx.  The source's second
replace rewrites each match of `(^|sep)人(?=$|sep)` to `$1人`, i.e. to
exactly the matched text — it is the identity on every string and is embedded
as such. -/
def normalizeObjectsForPrompt (raw : String) : String :=
  let s := jsTrim raw
  if s = "" then s
  else
    let out1 := strReplaceAll s "人物" "人"
    let out2 := out1
    String.mk (repAltsGo whoAlternatives "人はどんな見え方ですか".data 0 out2.data)

/-! ## Sessions (`saveOrUpdateSession` / `restoreSession` / eviction) -/

structure S2ObjectCard where
  label : String
  completed : Bool
deriving DecidableEq, Repr

/-- The persisted `Session` shape of ViewerAssistant.tsx (no field stores the
object cards' completion state). -/
structure Session where
  id : String
  createdAt : Nat
  updatedAt : Nat
  hasThumb : Bool
  impression : String
  objects : String
  s2Summary : String
  s2Dialogs : List (String × List ChatMessage)
  s3Summary : String
  s3SavedViews : List SavedView
  s3Dialogs : List (String × List ChatMessage)
  finalResult : String
  editedFinalResult : String
deriving DecidableEq, Repr

/-- Cap `MAX_SESSIONS` of ViewerAssistant.tsx. -/
def MAX_SESSIONS : Nat := 20

/-- The live orchestrator state of the `ViewerAssistant` component (the
uploaded `File` is abstracted to its thumbnail data URL). -/
structure OrchState where
  file : Option String
  imageURL : String
  step : Nat
  loading : Option Nat
  impression : String
  objects : String
  s2Cards : List S2ObjectCard
  s2CurrentObject : Option String
  s2Dialogs : List (String × List ChatMessage)
  s2Input : String
  s2Summary : String
  s3Candidates : List Step3Candidate
  s3Chosen : Option String
  s3Msgs : List ChatMessage
  s3Input : String
  s3Summary : String
  s3Dialogs : List (String × List ChatMessage)
  s3SavedViews : List SavedView
  savingS3 : Bool
  finalResult : String
  editedFinalResult : String
  s3ExcludedLabels : List String
  currentSessionId : Option String
deriving DecidableEq, Repr

/-- The `Session` record built by `saveOrUpdateSession` from the live state. -/
def snapshotSession (st : OrchState) (id : String) (createdAt now : Nat)
    (hasThumb : Bool) : Session :=
  { id := id, createdAt := createdAt, updatedAt := now, hasThumb := hasThumb,
    impression := st.impression, objects := st.objects,
    s2Summary := st.s2Summary, s2Dialogs := st.s2Dialogs,
    s3Summary := st.s3Summary, s3SavedViews := st.s3SavedViews,
    s3Dialogs := st.s3Dialogs,
    finalResult := st.finalResult, editedFinalResult := st.editedFinalResult }

/-- The `setSessions` updater of `saveOrUpdateSession`: replace by id in
place when present, else prepend and cut to the 20 most recent list slots. -/
def upsertSessions (session : Session) (prev : List Session) : List Session :=
  if prev.any (fun s => s.id == session.id) then
    prev.map (fun s => if s.id = session.id then session else s)
  else (session :: prev).take MAX_SESSIONS

/-- Effect of `saveOrUpdateSession` on the thumbnail blob store: put the new
thumbnail under the saved session's own id when a file is present; nothing is
ever deleted. -/
def saveThumbEffect (blobs : List (String × String)) (id : String)
    (thumb : Option String) : List (String × String) :=
  match thumb with
  | some t => aupdate blobs id t
  | none => blobs

/-- Handler `restoreSession` of ViewerAssistant.tsx, applied to the current live
state: every persisted field is copied back (`x || ""` fallbacks as in the
source), the object cards are rebuilt by re-splitting the persisted objects
text with `completed := false`, the phase-3 candidate list and exclusions are
cleared, and the `File` is reconstructed from the thumbnail when present. -/
def restoreSession (st : OrchState) (s : Session) (thumb : Option String) : OrchState :=
  { st with
    currentSessionId := some s.id
    impression := jsOr s.impression ""
    objects := jsOr s.objects ""
    s2Summary := jsOr s.s2Summary ""
    s2Dialogs := s.s2Dialogs
    s2Cards := (splitObjects (normalizeObjectsForPrompt (jsOr s.objects ""))).map
      (fun obj => { label := obj, completed := false })
    s2CurrentObject := none
    s2Input := ""
    s3Summary := jsOr s.s3Summary ""
    s3SavedViews := s.s3SavedViews
    s3Dialogs := s.s3Dialogs
    s3Candidates := []
    s3Chosen := none
    s3Msgs := []
    s3Input := ""
    savingS3 := false
    s3ExcludedLabels := []
    finalResult := jsOr s.finalResult ""
    editedFinalResult := jsOr s.editedFinalResult (jsOr s.finalResult "")
    file := thumb
    imageURL := (match thumb with | some t => t | none => "")
    step := 4 }

/-- Lookup of a stored session by id. -/
def findSessionById (l : List Session) (id : String) : Option Session :=
  l.find? (fun s => s.id == id)

theorem jsOr_empty (a : String) : jsOr a "" = a := by
  unfold jsOr
  by_cases h : a = ""
  · rw [if_pos h, h]
  · rw [if_neg h]

theorem findSessionById_upsert (session : Session) (prev : List Session) :
    findSessionById (upsertSessions session prev) session.id = some session := by
  unfold upsertSessions findSessionById
  by_cases hany : prev.any (fun s => s.id == session.id) = true
  · rw [if_pos hany]
    induction prev with
    | nil => simp at hany
    | cons s rest ih =>
      simp only [List.map_cons, List.find?]
      by_cases hs : s.id = session.id
      · rw [if_pos hs]
        simp
      · rw [if_neg hs]
        have hf : (s.id == session.id) = false := by simp [hs]
        simp only [hf]
        apply ih
        simp only [List.any_cons, hf, Bool.false_or] at hany
        exact hany
  · rw [if_neg hany]
    rw [show MAX_SESSIONS = 19 + 1 from rfl, List.take_succ_cons]
    simp only [List.find?]
    simp

/-! ## C5: session save / restore round trip -/

/-- C5: snapshotting the live state into a `Session` (as `saveOrUpdateSession`
does), storing it (upsert by id), looking it up again by id, and restoring it
over any current live state yields a state whose impression, objects, both
summaries, both per-key dialog ledgers (with every message's role, content
and hidden flag), and saved views are structurally equal to the pre-save
values. -/
theorem sessionRoundTrip (st stCur : OrchState) (id : String) (createdAt now : Nat)
    (hasThumb : Bool) (thumb : Option String) (prev : List Session) :
    findSessionById (upsertSessions (snapshotSession st id createdAt now hasThumb) prev)
      (snapshotSession st id createdAt now hasThumb).id
      = some (snapshotSession st id createdAt now hasThumb) ∧
    (restoreSession stCur (snapshotSession st id createdAt now hasThumb) thumb).impression
      = st.impression ∧
    (restoreSession stCur (snapshotSession st id createdAt now hasThumb) thumb).objects
      = st.objects ∧
    (restoreSession stCur (snapshotSession st id createdAt now hasThumb) thumb).s2Summary
      = st.s2Summary ∧
    (restoreSession stCur (snapshotSession st id createdAt now hasThumb) thumb).s3Summary
      = st.s3Summary ∧
    (restoreSession stCur (snapshotSession st id createdAt now hasThumb) thumb).s2Dialogs
      = st.s2Dialogs ∧
    (restoreSession stCur (snapshotSession st id createdAt now hasThumb) thumb).s3Dialogs
      = st.s3Dialogs ∧
    (restoreSession stCur (snapshotSession st id createdAt now hasThumb) thumb).s3SavedViews
      = st.s3SavedViews := by
  refine ⟨findSessionById_upsert _ prev, ?_, ?_, ?_, ?_, rfl, rfl, rfl⟩ <;>
    simp [restoreSession, snapshotSession, jsOr_empty]

/-! ## C10: completion flags are not persisted -/

/-- C10: the persisted `Session` shape carries no object-card state
(`snapshotSession` is invariant under the live `s2Cards`), and restoring any
session rebuilds the cards by re-splitting the persisted objects text with
every `completed` flag `false` — save-then-restore always loses which
objects were marked completed. -/
theorem restoreSession_resetsCompletion (st stCur : OrchState) (id : String)
    (createdAt now : Nat) (hasThumb : Bool) (thumb : Option String)
    (cards : List S2ObjectCard) :
    snapshotSession { st with s2Cards := cards } id createdAt now hasThumb
      = snapshotSession st id createdAt now hasThumb ∧
    (restoreSession stCur (snapshotSession st id createdAt now hasThumb) thumb).s2Cards
      = (splitObjects (normalizeObjectsForPrompt st.objects)).map
          (fun obj => { label := obj, completed := false }) ∧
    ((restoreSession stCur (snapshotSession st id createdAt now hasThumb) thumb).s2Cards.all
      (fun card => !card.completed)) = true := by
  refine ⟨rfl, ?_, ?_⟩
  · simp [restoreSession, snapshotSession, jsOr_empty]
  · simp only [restoreSession]
    rw [List.all_eq_true]
    intro card hcard
    obtain ⟨obj, _, hobj⟩ := List.mem_map.mp hcard
    rw [← hobj]
    rfl

/-! ## C4: session eviction at the cap -/

/-- C4 (amended): saving a session with a fresh id into a full list of 20
keeps the list at 20 by dropping exactly the final (tail) entry of the stored
list — which is the least-recently-updated session only when the list
happens to be ordered by recency; in-place updates do not reorder, so it
need not be — and the evicted session's thumbnail blob is NOT deleted:
`saveOrUpdateSession`'s only blob-store effect is putting the saved session's
own thumbnail. -/
theorem upsertSessions_eviction (session : Session) (prev : List Session)
    (hlen : prev.length = MAX_SESSIONS) (hfresh : session.id ∉ prev.map Session.id) :
    upsertSessions session prev = session :: prev.dropLast ∧
    (upsertSessions session prev).length = MAX_SESSIONS ∧
    (∀ (blobs : List (String × String)) (thumb : Option String) (k : String),
      (alookup blobs k).isSome = true →
      (alookup (saveThumbEffect blobs session.id thumb) k).isSome = true) := by
  have hany : prev.any (fun s => s.id == session.id) = false := by
    cases h : prev.any (fun s => s.id == session.id) with
    | false => rfl
    | true =>
      obtain ⟨s, hs, hps⟩ := List.any_eq_true.mp h
      have : session.id ∈ prev.map Session.id := by
        refine List.mem_map.mpr ⟨s, hs, ?_⟩
        simpa using hps
      exact absurd this hfresh
  have hup : upsertSessions session prev = session :: prev.dropLast := by
    unfold upsertSessions
    rw [if_neg (by simp [hany])]
    rw [show MAX_SESSIONS = 19 + 1 from rfl, List.take_succ_cons]
    have : prev.dropLast = prev.take 19 := by
      rw [List.dropLast_eq_take, hlen]
      rfl
    rw [this]
  refine ⟨hup, ?_, ?_⟩
  · rw [hup]
    simp only [List.length_cons, List.length_dropLast, hlen]
    rfl
  · intro blobs thumb k hk
    cases thumb with
    | none => exact hk
    | some t =>
      show (alookup (aupdate blobs session.id t) k).isSome = true
      by_cases hkid : k = session.id
      · rw [hkid, alookup_aupdate_self]
        rfl
      · rw [alookup_aupdate_ne blobs session.id k t hkid]
        exact hk

/-- A minimal concrete stored session for the C4 counterexample: id is the
position, `updatedAt` increases with the position (so the tail entry is the
most recently updated). -/
def mkSess4 (i : Nat) : Session :=
  { id := toString i, createdAt := i + 1, updatedAt := i + 1, hasThumb := false,
    impression := "", objects := "", s2Summary := "", s2Dialogs := [],
    s3Summary := "", s3SavedViews := [], s3Dialogs := [],
    finalResult := "", editedFinalResult := "" }

/-- A full stored list of 20 sessions whose tail entry ("19") has the
largest `updatedAt` and whose head entry ("0") has the smallest. -/
def prev20 : List Session := (List.range 20).map mkSess4

/-- The fresh 21st session being saved. -/
def newSess4 : Session := mkSess4 21

/-- C4 counterexample: saving the 21st session into `prev20` evicts the tail
entry "19" — the MOST recently updated prior session (`updatedAt = 20`) —
while the least-recently-updated session "0" (`updatedAt = 1`) is kept; and
the save's blob-store effect leaves the evicted session's blob in place. -/
theorem upsertSessions_eviction_cex :
    upsertSessions newSess4 prev20 = newSess4 :: prev20.dropLast ∧
    (prev20.find? (fun s => s.id == "19")).map Session.updatedAt = some 20 ∧
    (prev20.find? (fun s => s.id == "0")).map Session.updatedAt = some 1 ∧
    ((upsertSessions newSess4 prev20).map Session.id).contains "19" = false ∧
    ((upsertSessions newSess4 prev20).map Session.id).contains "0" = true ∧
    saveThumbEffect [("19", "blob19")] newSess4.id (some "thumb21")
      = [("19", "blob19"), (newSess4.id, "thumb21")] := by
  refine ⟨rfl, rfl, rfl, by decide, by decide, rfl⟩

/-- Witness for `upsertSessions_eviction` at the concrete full list. -/
theorem upsertSessions_eviction_witness :
    upsertSessions newSess4 prev20 = newSess4 :: prev20.dropLast ∧
    (upsertSessions newSess4 prev20).length = MAX_SESSIONS :=
  ⟨(upsertSessions_eviction newSess4 prev20 (by decide) (by decide)).1,
    (upsertSessions_eviction newSess4 prev20 (by decide) (by decide)).2.1⟩

/-! ## Phase-2 dialogue handlers (`selectS2Object` / `sendS2Chat`)

Each handler is embedded as a big-step transition: the state before the
event, the outcome of its single awaited transport call, and the resulting
state.  The source writes the kickoff (resp. the user's turn) into the
ledger *before* awaiting, uses the captured pre-call ledger in both
`setS2Dialogs` calls, and clears `loading` in a `finally`. -/

structure S2State where
  loading : Option Nat
  s2CurrentObject : Option String
  s2Dialogs : List (String × List ChatMessage)
  s2Input : String
deriving DecidableEq, Repr

/-- Handler `selectS2Object` of ViewerAssistant.tsx. -/
def selectS2Object (parse : String → Option Json) (impression : String)
    (st : S2State) (obj : String) (transport : Except Unit String) : S2State :=
  if st.loading.isSome then st
  else
    let st1 := { st with s2CurrentObject := some obj }
    match alookup st1.s2Dialogs obj with
    | some _ => st1
    | none =>
      let kickoff := buildStep2KickoffForObject impression obj
      match transport with
      | .ok outRaw =>
        { st1 with
          s2Dialogs := aupdate st.s2Dialogs obj
            (kickoff ++ [{ role := .assistant, content := normalizeAssistantText parse outRaw }])
          loading := none }
      | .error _ =>
        { st1 with s2Dialogs := aupdate st.s2Dialogs obj kickoff, loading := none }

/-- Handler `sendS2Chat` of ViewerAssistant.tsx. -/
def sendS2Chat (parse : String → Option Json) (st : S2State)
    (transport : Except Unit String) : S2State :=
  if st.loading.isSome then st
  else
    match st.s2CurrentObject with
    | none => st
    | some cur =>
      if jsTrim st.s2Input = "" then st
      else
        let next := (alookup st.s2Dialogs cur).getD []
          ++ [{ role := .user, content := st.s2Input }]
        match transport with
        | .ok outRaw =>
          { st with
            s2Dialogs := aupdate st.s2Dialogs cur
              (next ++ [{ role := .assistant, content := normalizeAssistantText parse outRaw }])
            s2Input := ""
            loading := none }
        | .error _ =>
          { st with
            s2Dialogs := aupdate st.s2Dialogs cur next
            s2Input := ""
            loading := none }

/-! ## C3: transport failure in the dialogue handlers -/

/-- C3 (amended): when the transport call of `selectS2Object` (fresh dialogue)
or `sendS2Chat` fails, the busy flag is nevertheless cleared and no assistant
turn is appended; but the ledger is NOT left unmodified: `selectS2Object`
leaves the newly created kickoff entry (hidden non-assistant turns only) and
`sendS2Chat` leaves the appended user turn, while all other keys' entries are
untouched. -/
theorem s2TransportFailure_amended :
    (∀ (parse : String → Option Json) (imp : String) (st : S2State) (obj : String),
      st.loading = none → alookup st.s2Dialogs obj = none →
      (selectS2Object parse imp st obj (.error ())).loading = none ∧
      alookup (selectS2Object parse imp st obj (.error ())).s2Dialogs obj
        = some (buildStep2KickoffForObject imp obj) ∧
      (buildStep2KickoffForObject imp obj).all (fun m => m.role != Role.assistant) = true ∧
      (∀ k, k ≠ obj → alookup (selectS2Object parse imp st obj (.error ())).s2Dialogs k
        = alookup st.s2Dialogs k)) ∧
    (∀ (parse : String → Option Json) (st : S2State) (cur : String),
      st.loading = none → st.s2CurrentObject = some cur → jsTrim st.s2Input ≠ "" →
      (sendS2Chat parse st (.error ())).loading = none ∧
      alookup (sendS2Chat parse st (.error ())).s2Dialogs cur
        = some ((alookup st.s2Dialogs cur).getD []
            ++ [{ role := .user, content := st.s2Input }]) ∧
      (∀ k, k ≠ cur → alookup (sendS2Chat parse st (.error ())).s2Dialogs k
        = alookup st.s2Dialogs k)) := by
  constructor
  · intro parse imp st obj hld hdial
    have hred : selectS2Object parse imp st obj (.error ())
        = { st with
            s2CurrentObject := some obj
            s2Dialogs := aupdate st.s2Dialogs obj (buildStep2KickoffForObject imp obj)
            loading := none } := by
      unfold selectS2Object
      rw [hld]
      simp only [Option.isSome_none, Bool.false_eq_true, if_false, hdial]
    rw [hred]
    refine ⟨rfl, alookup_aupdate_self _ _ _, rfl, ?_⟩
    intro k hk
    exact alookup_aupdate_ne _ _ _ _ hk
  · intro parse st cur hld hcur hinput
    have hred : sendS2Chat parse st (.error ())
        = { st with
            s2Dialogs := aupdate st.s2Dialogs cur ((alookup st.s2Dialogs cur).getD []
              ++ [{ role := .user, content := st.s2Input }])
            s2Input := ""
            loading := none } := by
      unfold sendS2Chat
      rw [hld, hcur]
      simp only [Option.isSome_none, Bool.false_eq_true, if_false]
      rw [if_neg hinput]
    rw [hred]
    refine ⟨rfl, alookup_aupdate_self _ _ _, ?_⟩
    intro k hk
    exact alookup_aupdate_ne _ _ _ _ hk

/-- The empty phase-2 state used by the C3 witness and counterexample. -/
def st3 : S2State :=
  { loading := none, s2CurrentObject := none, s2Dialogs := [], s2Input := "" }

/-- Witness for `s2TransportFailure_amended` at a concrete state. -/
theorem s2TransportFailure_amended_witness :
    (selectS2Object (fun _ => none) "静かな感じ" st3 "人" (.error ())).loading = none ∧
    alookup (selectS2Object (fun _ => none) "静かな感じ" st3 "人" (.error ())).s2Dialogs "人"
      = some (buildStep2KickoffForObject "静かな感じ" "人") :=
  ⟨(s2TransportFailure_amended.1 (fun _ => none) "静かな感じ" st3 "人" rfl rfl).1,
    (s2TransportFailure_amended.1 (fun _ => none) "静かな感じ" st3 "人" rfl rfl).2.1⟩

/-- C3 counterexample: on transport failure, `selectS2Object` HAS modified
the ledger — a new entry for the selected object (holding the two hidden
kickoff turns, no assistant reply) exists where there was none — refuting
"the per-key dialogue ledger is left unmodified". -/
theorem s2TransportFailure_cex :
    (selectS2Object (fun _ => none) "静かな感じ" st3 "人" (.error ())).s2Dialogs
      ≠ st3.s2Dialogs ∧
    (selectS2Object (fun _ => none) "静かな感じ" st3 "人" (.error ())).loading = none ∧
    alookup (selectS2Object (fun _ => none) "静かな感じ" st3 "人" (.error ())).s2Dialogs "人"
      = some (buildStep2KickoffForObject "静かな感じ" "人") := by
  refine ⟨?_, rfl, rfl⟩
  intro h
  exact List.cons_ne_nil _ _ h

/-! ## Final synthesis (`generateFinal`) -/

structure GFState where
  impression : String
  objects : String
  s2Summary : String
  s3Summary : String
  finalResult : String
  editedFinalResult : String
  s2Dialogs : List (String × List ChatMessage)
  s3SavedViews : List SavedView
  loading : Option Nat
  step : Nat
deriving DecidableEq, Repr

/-- Helper `summarizeStep2Now` of ViewerAssistant.tsx: no transport call when all
ledgers are empty (result `""`), otherwise the transport's text trimmed
(`String(sum || "").trim()`), or the propagated failure. -/
def summarizeStep2Now (s2Dialogs : List (String × List ChatMessage))
    (t2 : Except Unit String) : Except Unit String :=
  if ((s2Dialogs.map (·.2)).flatten).isEmpty then .ok ""
  else t2.map jsTrim

/-- Helper `summarizeStep3Now` of ViewerAssistant.tsx: no transport call when no
saved view carries a non-empty summary. -/
def summarizeStep3Now (views : List SavedView) (t3 : Except Unit String) :
    Except Unit String :=
  if (views.filter (fun v => jsTrim (v.summary.getD "") != "")).isEmpty then .ok ""
  else t3.map jsTrim

/-- The fallback placeholder for a missing phase-2 summary. -/
def gfPlaceholderS2 : String := "（Step2の要約は未記録）"

/-- The fallback placeholder for missing phase-3 viewpoints. -/
def gfPlaceholderS3 : String := "（Step3の視点は未記録）"

/-- Handler `generateFinal` of ViewerAssistant.tsx: re-summarize phase 2 and phase 3,
then issue the synthesis call with `fresh || cached || placeholder`
arguments.  The three transport outcomes are passed in order; a thrown
summarization propagates out of the handler (only the `finally` clearing
`loading` runs) and the synthesis call is never issued — the second
component records the message list of the synthesis call, `none` when it was
not issued. -/
def generateFinal (st : GFState) (t2 t3 tf : Except Unit String) :
    GFState × Option (List ChatMessage) :=
  if st.loading.isSome then (st, none)
  else
    match summarizeStep2Now st.s2Dialogs t2 with
    | .error _ => ({ st with loading := none }, none)
    | .ok freshS2 =>
      let st1 := if freshS2 = "" then st else { st with s2Summary := freshS2 }
      match summarizeStep3Now st.s3SavedViews t3 with
      | .error _ => ({ st1 with loading := none }, none)
      | .ok freshS3 =>
        let st2 := if freshS3 = "" then st1 else { st1 with s3Summary := freshS3 }
        let msgs := buildFinalMessages st.impression st.objects
          (jsOr freshS2 (jsOr st.s2Summary gfPlaceholderS2))
          (jsOr freshS3 (jsOr st.s3Summary gfPlaceholderS3))
        match tf with
        | .error _ => ({ st2 with loading := none }, some msgs)
        | .ok out =>
          ({ st2 with
              finalResult := out
              editedFinalResult := out
              step := 4
              loading := none }, some msgs)

/-! ## C8: synthesis fallbacks and the failure path -/

/-- C8 (amended): when the re-summarization calls *return* (possibly empty)
text, the synthesis call is always issued, with each summary slot filled by
the fresh text, else the cached summary, else the explicit placeholder; but
when a re-summarization call *throws*, the exception propagates: `loading`
is cleared and the synthesis call is never issued. -/
theorem generateFinal_amended :
    (∀ (st : GFState) (tf : Except Unit String), st.loading = none →
      (generateFinal st (.ok "") (.ok "") tf).2
        = some (buildFinalMessages st.impression st.objects
            (jsOr st.s2Summary gfPlaceholderS2) (jsOr st.s3Summary gfPlaceholderS3))) ∧
    (∀ (st : GFState) (t3 tf : Except Unit String), st.loading = none →
      ((st.s2Dialogs.map (·.2)).flatten).isEmpty = false →
      generateFinal st (.error ()) t3 tf = ({ st with loading := none }, none)) := by
  constructor
  · intro st tf hld
    have h2 : summarizeStep2Now st.s2Dialogs (.ok "") = .ok "" := by
      unfold summarizeStep2Now
      split
      · rfl
      · rfl
    have h3 : summarizeStep3Now st.s3SavedViews (.ok "") = .ok "" := by
      unfold summarizeStep3Now
      split
      · rfl
      · rfl
    unfold generateFinal
    rw [hld, h2, h3]
    simp only [Option.isSome_none, Bool.false_eq_true, if_false, if_pos rfl]
    cases tf with
    | error e => rfl
    | ok out => rfl
  · intro st t3 tf hld hne
    have h2 : summarizeStep2Now st.s2Dialogs (.error ()) = .error () := by
      unfold summarizeStep2Now
      rw [hne]
      simp only [Bool.false_eq_true, if_false]
      rfl
    unfold generateFinal
    rw [hld, h2]
    simp only [Option.isSome_none, Bool.false_eq_true, if_false]

/-- Concrete state for C8: one non-empty ledger and a cached phase-2
summary. -/
def cst8 : GFState :=
  { impression := "i", objects := "o", s2Summary := "cached S2", s3Summary := "",
    finalResult := "", editedFinalResult := "",
    s2Dialogs := [("人", [{ role := .user, content := "x" }])],
    s3SavedViews := [], loading := none, step := 3 }

/-- Witness for `generateFinal_amended`: with empty fresh summaries, the
synthesis call is issued with the cached phase-2 summary and the phase-3
placeholder. -/
theorem generateFinal_amended_witness :
    (generateFinal cst8 (.ok "") (.ok "") (.ok "final text")).2
      = some (buildFinalMessages "i" "o" "cached S2" gfPlaceholderS3) := by
  have h := generateFinal_amended.1 cst8 (.ok "final text") rfl
  rw [h]
  rfl

/-- C8 counterexample: with a non-empty ledger and a non-empty cached
summary, a *failing* fresh phase-2 summarization call aborts `generateFinal`
— `loading` is cleared but the synthesis call is never issued — refuting
"if a fresh re-summarization call fails ... the synthesis call still
proceeds using the last cached summary". -/
theorem generateFinal_cex :
    (generateFinal cst8 (.error ()) (.ok "") (.ok "final text")).2 = none ∧
    (generateFinal cst8 (.error ()) (.ok "") (.ok "final text")).1.loading = none ∧
    cst8.s2Summary = "cached S2" ∧
    ((cst8.s2Dialogs.map (·.2)).flatten).isEmpty = false := by
  refine ⟨rfl, rfl, rfl, rfl⟩

end ViewerAssistant
